import Mathlib

/-!
Shallow embedding of the AIH2025 PDF-outline heuristics.

Source files:
  * Challenge_1a/process_pdfs_robust.py      (RobustPDFProcessor)
  * Challenge_1b/process_collections_minimal.py (MinimalCollectionProcessor)

Modelling conventions:
  * Python floats are modelled as rationals (ℚ); the arithmetic used by the
    code (comparisons against 12/14/16, sums of tenths, division, min) is
    exact on the values involved.
  * Python strings are modelled as `List Char` (ASCII; the texts processed by
    the heuristics are Latin-script).  `str.strip`, `str.lower`,
    `str.isdigit`, slicing, and the concrete regexes of the source are
    implemented character by character below.
  * `re.match(p, s)` anchors at the start of `s`; a trailing `$` in `p` is
    modelled as end-of-input (span texts are `strip()`ed upstream, so they
    carry no trailing newline).
-/

namespace AIH

/-- ASCII range of Python re `\s` / `str.strip` whitespace. -/
def isWsC (c : Char) : Bool :=
  c == ' ' || c == '\t' || c == '\n' || c == '\r' || c == '\x0b' || c == '\x0c'

/-- Python re `\w` (ASCII range): alphanumeric or underscore. -/
def isWordC (c : Char) : Bool := c.isAlphanum || c == '_'

/-- Python sentence-ending punctuation class `[.!?]`. -/
def isPunctC (c : Char) : Bool := c == '.' || c == '!' || c == '?'

/-- Python `str.lower()` (ASCII). -/
def pyLower (s : List Char) : List Char := s.map Char.toLower

/-- Python `str.strip()` (ASCII whitespace). -/
def pyStrip (s : List Char) : List Char :=
  ((s.dropWhile isWsC).reverse.dropWhile isWsC).reverse

/-- Python `str.isdigit()` (ASCII): nonempty and all digits. -/
def pyIsDigit (s : List Char) : Bool := !s.isEmpty && s.all Char.isDigit

/-- Python `re.sub(r'\s+', ' ', s)`: collapse every whitespace run to one space. -/
def collapseWs (s : List Char) : List Char :=
  match s with
  | [] => []
  | [c] => if isWsC c then [' '] else [c]
  | c :: d :: rest =>
    if isWsC c then
      if isWsC d then collapseWs (c :: rest)
      else ' ' :: collapseWs (d :: rest)
    else c :: collapseWs (d :: rest)
termination_by s.length

/-- `re.sub(r'\b\d+\s*$', '', s)` from `refine_text_for_subsection`:
remove a trailing digit run (plus trailing whitespace) when a word boundary
precedes the digits; the match must reach the end of the string, so at most
the last digit run is removed, and only when the character before it is
absent or a non-word character. -/
def stripTrailNum (s : List Char) : List Char :=
  let r := s.reverse
  let r2 := r.dropWhile isWsC
  let ds := r2.takeWhile Char.isDigit
  let r3 := r2.dropWhile Char.isDigit
  if ds.isEmpty then s
  else
    match r3 with
    | [] => []
    | c :: _ => if isWordC c then s else r3.reverse

/-- Python `re.split(r'[.!?]+', s)`: chunks between maximal punctuation runs
(including empty chunks at the edges), as in `refine_text_for_subsection`. -/
def splitPunct (s : List Char) : List (List Char) :=
  match s with
  | [] => [[]]
  | [c] => if isPunctC c then [[], []] else [[c]]
  | c :: d :: rest =>
    if isPunctC c then
      if isPunctC d then splitPunct (c :: rest)
      else [] :: splitPunct (d :: rest)
    else
      match splitPunct (d :: rest) with
      | chunk :: out => (c :: chunk) :: out
      | [] => [[c]]
termination_by s.length

/-- Haystack/needle prefix test used by the substring and `startswith` models. -/
def isPref : List Char → List Char → Bool
  | [], _ => true
  | _ :: _, [] => false
  | c :: cs, d :: ds => c == d && isPref cs ds

/-- Python `needle in hay` (contiguous substring). -/
def isSub (n : List Char) : List Char → Bool
  | [] => n.isEmpty
  | h :: t => isPref n (h :: t) || isSub n t

/-- Consume a literal prefix, returning the rest of the input on success. -/
def litPref : List Char → List Char → Option (List Char)
  | [], t => some t
  | _ :: _, [] => none
  | c :: cs, d :: ds => if c == d then litPref cs ds else none

/-! ### The five heading regexes of `RobustPDFProcessor.heading_patterns` -/

/-- `^[A-Z][A-Z\s]{2,}$` — all-caps line. -/
def allCapsPat (t : List Char) : Bool :=
  match t with
  | [] => false
  | c :: rest => c.isUpper && decide (2 ≤ rest.length) &&
      rest.all (fun d => d.isUpper || isWsC d)

/-- `^\d+\.\s+[A-Z]` — numbered heading (prefix match). -/
def numberedPat (t : List Char) : Bool :=
  (!(t.takeWhile Char.isDigit).isEmpty) &&
  (match t.dropWhile Char.isDigit with
   | '.' :: r2 =>
     (!(r2.takeWhile isWsC).isEmpty) &&
     (match r2.dropWhile isWsC with
      | c :: _ => c.isUpper
      | [] => false)
   | _ => false)

/-- One `[A-Z][a-z]+` word; returns the rest of the input on success. -/
def titleWord (t : List Char) : Option (List Char) :=
  match t with
  | [] => none
  | c :: rest =>
    if c.isUpper then
      if (rest.takeWhile Char.isLower).isEmpty then none
      else some (rest.dropWhile Char.isLower)
    else none

/-- Tail of the title-case regex: `(?:\s+[A-Z][a-z]+)*$` (fuelled; the fuel is
always instantiated with the length of the remaining input plus one). -/
def titleTail (fuel : Nat) (t : List Char) : Bool :=
  match fuel with
  | 0 => false
  | fuel + 1 =>
    match t with
    | [] => true
    | _ =>
      if (t.takeWhile isWsC).isEmpty then false
      else
        match titleWord (t.dropWhile isWsC) with
        | some r => titleTail fuel r
        | none => false

/-- `^[A-Z][a-z]+(?:\s+[A-Z][a-z]+)*$` — Title Case phrase. -/
def titleCasePat (t : List Char) : Bool :=
  match titleWord t with
  | some r => titleTail (t.length + 1) r
  | none => false

/-- `\s+\d` continuation shared by the Chapter/Section regexes. -/
def wsThenDigit (r : List Char) : Bool :=
  (!(r.takeWhile isWsC).isEmpty) &&
  (match r.dropWhile isWsC with
   | c :: _ => c.isDigit
   | [] => false)

/-- `^Chapter\s+\d+` (prefix match). -/
def chapterPat (t : List Char) : Bool :=
  match litPref ("Chapter".toList) t with
  | some r => wsThenDigit r
  | none => false

/-- `^Section\s+\d+` (prefix match). -/
def sectionPat (t : List Char) : Bool :=
  match litPref ("Section".toList) t with
  | some r => wsThenDigit r
  | none => false

/-- Disjunction of the five `heading_patterns`, in source order.  (The loop in
the source breaks at the first match; for the emitted boolean only the
disjunction matters, and for the level only the all-caps / numbered retests
matter — see `classify`.) -/
def patHit (t : List Char) : Bool :=
  allCapsPat t || numberedPat t || titleCasePat t || chapterPat t || sectionPat t

/-! ### Data model -/

/-- Heading level strings `"H1" / "H2" / "H3"` of the source. -/
inductive HLevel where
  | H1 | H2 | H3
deriving DecidableEq

/-- A text span as produced by `extract_text_with_positions` (text, page,
font size, bold/italic flags, bounding box `(x0, y0, x1, y1)`). -/
structure Block where
  text : List Char
  page : Nat
  font_size : ℚ
  is_bold : Bool
  is_italic : Bool
  bbox : ℚ × ℚ × ℚ × ℚ
deriving DecidableEq

/-- `bbox[1]`, the top coordinate of a span. -/
def Block.y0 (b : Block) : ℚ := b.bbox.2.1

/-- `bbox[3]`, the bottom coordinate of a span. -/
def Block.y1 (b : Block) : ℚ := b.bbox.2.2.2

/-- A heading record as built by `identify_headings` (the source dict holds
exactly the keys `level, text, page, font_size, confidence` — note that it
carries no `bbox`). -/
structure Heading where
  level : HLevel
  text : List Char
  page : Nat
  font_size : ℚ
  confidence : ℚ
deriving DecidableEq

/-- An outline entry as built by `refine_outline` (`level, text, page`). -/
structure OutlineEntry where
  level : HLevel
  text : List Char
  page : Nat
deriving DecidableEq

/-- A section as built by `extract_sections_from_pdf` and tagged with its
document by `process_collection`. -/
structure PSection where
  text : List Char
  page : Nat
  font_sizes : List ℚ
  is_heading : Bool
  document : List Char
deriving DecidableEq

/-- A ranked section: the section dict enriched with the three score keys
added by `rank_sections_by_importance`. -/
structure Ranked where
  sec : PSection
  importance_score : ℚ
  persona_relevance : ℚ
  task_relevance : ℚ
deriving DecidableEq

/-! ### Stable sort-by-key

`list.sort(key=...)` in Python is a stable sort by a key function; any stable
sort computes the same list, so it is embedded as a stable insertion sort:
an element is inserted from the left end of the already-sorted tail, before
the first element of key not smaller than its own — hence earlier elements
keep their place among equal keys.  Sorting descending with `reverse=True`
(also stable) is recovered by negating a rational key. -/

def sInsertK {α : Type} {κ : Type} [LinearOrder κ] (key : α → κ) (a : α) :
    List α → List α
  | [] => [a]
  | b :: l => if key a ≤ key b then a :: b :: l else b :: sInsertK key a l

def sSortK {α : Type} {κ : Type} [LinearOrder κ] (key : α → κ) :
    List α → List α
  | [] => []
  | a :: l => sInsertK key a (sSortK key l)

/-- `defaultdict` grouping key order: page numbers in order of first
occurrence (Python dict preserves insertion order). -/
def firstKeys (l : List Nat) : List Nat :=
  l.foldl (fun acc p => if p ∈ acc then acc else acc ++ [p]) []

/-- Python `max` over a nonempty list (the empty case never survives the
source's `try`, see `calculate_heading_confidence`). -/
def maxQ : List ℚ → ℚ
  | [] => 0
  | [x] => x
  | x :: y :: l => max x (maxQ (y :: l))

/-! ### Heading Classifier (`RobustPDFProcessor.identify_headings`) -/

/-- Step-2 typographic trigger: `font_size > 12 or is_bold`. -/
def typoHit (b : Block) : Bool := decide ((12 : ℚ) < b.font_size) || b.is_bold

/-- Step-5 lookahead: a following span on the page with strictly smaller font
size and text longer than 20 characters. -/
def lookaheadHit (pbs : List Block) (i : Nat) (b : Block) : Bool :=
  match pbs[i + 1]? with
  | some nb => decide (nb.font_size < b.font_size) && decide (20 < nb.text.length)
  | none => false

/-- The trivial-noise texts skipped by the classifier. -/
def noiseTexts : List (List Char) :=
  ["page".toList, "continued".toList, "...".toList]

/-- Page height used by the position bonus: `max(b["bbox"][3] for b in
page_blocks)`. -/
def pageHeight (pbs : List Block) : ℚ := maxQ (pbs.map Block.y1)

/-- `calculate_heading_confidence`.  Additive bonuses, clamped to 1.  For an
empty `page_blocks` the source's `max()` raises and the `except` swallows the
position bonus, so that bonus requires a nonempty page; the other bonuses are
accumulated before the `max()` call and therefore survive. -/
def calculate_heading_confidence (b : Block) (pbs : List Block) : ℚ :=
  let c1 : ℚ := if (14 : ℚ) < b.font_size then 0.3
    else if (12 : ℚ) < b.font_size then 0.2 else 0
  let c2 : ℚ := c1 + (if b.is_bold then 0.3 else 0)
  let c3 : ℚ := c2 + (if patHit b.text then 0.2 else 0)
  let c4 : ℚ := c3 + (if 3 ≤ b.text.length ∧ b.text.length ≤ 100 then 0.1 else 0)
  let posBonus : ℚ :=
    match pbs with
    | [] => 0
    | _ :: _ => if b.y0 < pageHeight pbs * 0.3 then 0.1 else 0
  let c5 : ℚ := c4 + posBonus
  min c5 1

/-- The per-span body of the `identify_headings` loop: `b` is the span at
index `i` of the page's y0-sorted spans `pbs`.  The level starts at H3, is
escalated by typography, then overwritten by a matching all-caps (H1) or
numbered (H2) pattern — the source retests exactly those two after its
first-match-wins loop — and finally overwritten to H1 by the first-span
position signal. -/
def classify (pbs : List Block) (i : Nat) (b : Block) : Option Heading :=
  if b.text.length < 3 ∨ pyLower b.text ∈ noiseTexts then none
  else
    let lvlTypo : HLevel :=
      if typoHit b then
        if (16 : ℚ) < b.font_size then .H1
        else if (14 : ℚ) < b.font_size then .H2
        else .H3
      else .H3
    let lvlPat : HLevel :=
      if patHit b.text then
        if allCapsPat b.text then .H1
        else if numberedPat b.text then .H2
        else lvlTypo
      else lvlTypo
    let posHit : Bool := decide (i = 0) && decide (5 < b.text.length) && !pyIsDigit b.text
    let lvl : HLevel := if posHit then .H1 else lvlPat
    if typoHit b || patHit b.text || posHit || lookaheadHit pbs i b then
      some ⟨lvl, b.text, b.page, b.font_size, calculate_heading_confidence b pbs⟩
    else none

/-- One page's pass of `identify_headings`: enumerate the y0-sorted spans and
collect the classified headings in scan order. -/
def processPage (pbs : List Block) : List Heading :=
  pbs.enum.filterMap (fun ib => classify pbs ib.1 ib.2)

/-- The spans of one page, in original order (`pages[page].append(block)`). -/
def pageChunk (blocks : List Block) (p : Nat) : List Block :=
  blocks.filter (fun b => decide (b.page = p))

/-- `identify_headings`: group spans by page (first-occurrence key order),
sort each page top-to-bottom by `bbox[1]`, classify every span, then sort the
collected headings.  The final `sort(key=lambda x: (x["page"],
x.get("bbox",[0])[1]))` always raises `IndexError` — heading dicts carry no
`"bbox"`, so the default `[0]` is indexed at 1 — CPython restores the list,
and the `except` branch sorts by `page` alone (stably). -/
def identify_headings (blocks : List Block) : List Heading :=
  let keys := firstKeys (blocks.map Block.page)
  sSortK Heading.page
    ((keys.map (fun p => processPage (sSortK Block.y0 (pageChunk blocks p)))).flatten)

/-- Candidate test of the `extract_title` fallback scan: stripped text longer
than 5, not purely numeric, not starting with page/continued. -/
def titleCand (t : List Char) : Bool :=
  let s := pyStrip t
  decide (5 < s.length) && !pyIsDigit s &&
    !(isPref ("page".toList) (pyLower s) || isPref ("continued".toList) (pyLower s))

/-- `extract_title`: sentinel on no spans; else first H1 heading's text; else
first qualifying span's stripped text truncated to 100 characters; else the
sentinel. -/
def extract_title (blocks : List Block) (headings : List Heading) : List Char :=
  if blocks.isEmpty then "Untitled Document".toList
  else
    match headings.find? (fun h => decide (h.level = HLevel.H1)) with
    | some h => h.text
    | none =>
      match blocks.find? (fun b => titleCand b.text) with
      | some b => (pyStrip b.text).take 100
      | none => "Untitled Document".toList

/-- `refine_outline`: drop empty-after-strip texts and confidences below 0.3,
pass level / stripped text / page through in order. -/
def refine_outline (headings : List Heading) : List OutlineEntry :=
  headings.filterMap (fun h =>
    if (pyStrip h.text).isEmpty then none
    else if h.confidence < (0.3 : ℚ) then none
    else some ⟨h.level, pyStrip h.text, h.page⟩)

/-! ### Section Segmenter and Ranker (`MinimalCollectionProcessor`) -/

/-- The heading-boundary trigger of `extract_sections_from_pdf` (lines 97–99):
`font_size > 14 or is_bold or re.match(all-caps) or re.match(numbered)`. -/
def segTrigger (b : Block) : Bool :=
  decide ((14 : ℚ) < b.font_size) || b.is_bold ||
    allCapsPat b.text || numberedPat b.text

/-- The `persona_keywords` configuration table. -/
def persona_keywords : List (List Char × List (List Char)) :=
  [("Travel Planner".toList,
    ["travel", "trip", "vacation", "hotel", "restaurant", "attraction",
     "itinerary", "booking", "reservation", "transport", "accommodation",
     "sightseeing", "tour", "guide", "map", "location", "city", "region",
     "culture", "cuisine", "activities", "entertainment", "budget", "cost",
     "france", "south", "mediterranean", "coast", "beach", "wine",
     "food"].map String.toList),
   ("HR Professional".toList,
    ["form", "document", "signature", "compliance", "onboarding",
     "employee", "hr", "human resources", "policy", "procedure",
     "fillable", "editable", "template", "workflow", "approval",
     "digital", "electronic", "automation", "process", "management",
     "acrobat", "pdf", "fill", "sign", "export", "share",
     "edit"].map String.toList),
   ("Food Contractor".toList,
    ["recipe", "cooking", "food", "ingredient", "meal", "dish",
     "vegetarian", "buffet", "catering", "menu", "preparation",
     "kitchen", "chef", "culinary", "dining", "service", "corporate",
     "event", "gathering", "party", "celebration", "dietary", "nutrition",
     "breakfast", "lunch", "dinner", "main", "side",
     "appetizer"].map String.toList)]

/-- `self.persona_keywords.get(persona, [])`. -/
def lookupKw (persona : List Char) : List (List Char) :=
  match persona_keywords.find? (fun e => decide (e.1 = persona)) with
  | some e => e.2
  | none => []

/-- Keywords of `kws` contained (case-insensitively) in `t`. -/
def countMatches (t : List Char) (kws : List (List Char)) : Nat :=
  (kws.filter (fun kw => isSub (pyLower kw) (pyLower t))).length

/-- `calculate_persona_relevance`: keyword-overlap ratio, boosted by 1.2 for
texts longer than 100 characters, clamped to 1. -/
def calculate_persona_relevance (t persona : List Char) : ℚ :=
  if t.isEmpty || persona.isEmpty then 0
  else
    let kws := lookupKw persona
    if kws.isEmpty then 0
    else
      let relevance : ℚ := (countMatches t kws : ℚ) / (kws.length : ℚ)
      let boosted : ℚ := if 100 < t.length then relevance * 1.2 else relevance
      min boosted 1

/-- Per-section body of `rank_sections_by_importance`: the four factors and
the combined importance score. -/
def scoreSection (persona task : List Char) (s : PSection) : Ranked :=
  let pr := calculate_persona_relevance s.text persona
  let tr := calculate_persona_relevance s.text task
  let lengthFactor : ℚ := min ((s.text.length : ℚ) / 1000) 1
  let headingFactor : ℚ := if s.is_heading then 1.5 else 1
  let fontFactor : ℚ :=
    if s.font_sizes.isEmpty then 1
    else min ((s.font_sizes.sum / (s.font_sizes.length : ℚ)) / 12) 2
  ⟨s, (pr * 0.4 + tr * 0.3 + lengthFactor * 0.2 + headingFactor * 0.1) * fontFactor,
    pr, tr⟩

/-- `rank_sections_by_importance`: skip sections whose stripped text is empty,
score the rest, and sort by importance score, descending and stable
(`sort(key=..., reverse=True)` — embedded as a stable ascending sort on the
negated score). -/
def rank_sections_by_importance (sections : List PSection)
    (persona task : List Char) : List Ranked :=
  sSortK (fun r => -r.importance_score)
    ((sections.filter (fun s => !(pyStrip s.text).isEmpty)).map
      (scoreSection persona task))

/-- The greedy sentence-reassembly loop of `refine_text_for_subsection`. -/
def greedyAssemble : List (List Char) → List Char → List Char
  | [], acc => acc
  | s :: rest, acc =>
    if (acc ++ s).length < 2000 then
      greedyAssemble rest (acc ++ s ++ (". ".toList))
    else acc

/-- `refine_text_for_subsection`: collapse whitespace, strip a trailing page
number, and for texts over 2000 characters greedily reassemble sentences
under the cap. -/
def refine_text_for_subsection (text : List Char) : List Char :=
  if text.isEmpty then []
  else
    let t1 := collapseWs (pyStrip text)
    let t2 := stripTrailNum t1
    if 2000 < t2.length then pyStrip (greedyAssemble (splitPunct t2) [])
    else t2

/-! ### Concrete inputs used by counterexamples and witnesses -/

/-- A two-character span: too short to classify, it only occupies index 0 of
its page. -/
def nbShort : Block := ⟨"ab".toList, 1, 5, false, false, (0, 0, 100, 5)⟩

/-- A numbered-heading span with font size 18 (typography alone would say
H1), placed below `nbShort` on page 1. -/
def numB18 : Block :=
  ⟨"1. Introduction".toList, 1, 18, false, false, (0, 10, 100, 20)⟩

/-- A `Chapter n` span with small font: pattern-trigger only. -/
def chB : Block := ⟨"Chapter 1".toList, 1, 10, false, false, (0, 0, 100, 5)⟩

/-- A 13-point span: above the classifier's 12-point threshold, below the
segmenter's 14-point threshold. -/
def fs13B : Block := ⟨"hello there".toList, 1, 13, false, false, (0, 0, 100, 5)⟩

/-- A 20-point span: triggers both the segmenter and the classifier. -/
def bigB : Block := ⟨"hello there".toList, 1, 20, false, false, (0, 0, 100, 5)⟩

/-! ## Helper lemmas -/

/-! ### Stable sort -/

theorem mem_sInsertK {α κ : Type} [LinearOrder κ] (key : α → κ) (a x : α)
    (l : List α) : x ∈ sInsertK key a l ↔ x = a ∨ x ∈ l := by
  induction l with
  | nil => simp [sInsertK]
  | cons b l ih =>
    by_cases h : key a ≤ key b
    · simp [sInsertK, h]
    · simp only [sInsertK, if_neg h, List.mem_cons, ih]
      tauto

theorem mem_sSortK {α κ : Type} [LinearOrder κ] (key : α → κ) (x : α)
    (l : List α) : x ∈ sSortK key l ↔ x ∈ l := by
  induction l with
  | nil => simp [sSortK]
  | cons a l ih => simp [sSortK, mem_sInsertK, ih]

theorem pairwise_lex_sInsertK {α κ : Type} [LinearOrder κ] (key : α → κ)
    (R : α → α → Prop) (a : α) (l : List α)
    (hl : l.Pairwise (fun x y => key x < key y ∨ (key x = key y ∧ R x y)))
    (ha : ∀ b ∈ l, key a = key b → R a b) :
    (sInsertK key a l).Pairwise
      (fun x y => key x < key y ∨ (key x = key y ∧ R x y)) := by
  induction l with
  | nil => simp [sInsertK]
  | cons b l ih =>
    rw [List.pairwise_cons] at hl
    obtain ⟨hb, hl⟩ := hl
    by_cases h : key a ≤ key b
    · have e : sInsertK key a (b :: l) = a :: b :: l := by simp [sInsertK, h]
      rw [e]
      refine List.Pairwise.cons ?_ (List.Pairwise.cons hb hl)
      intro x hx
      rcases List.mem_cons.mp hx with rfl | hx
      · rcases lt_or_eq_of_le h with h | h
        · exact Or.inl h
        · exact Or.inr ⟨h, ha x (List.mem_cons_self x l) h⟩
      · have hbx := hb x hx
        have hbkey : key b ≤ key x := by
          rcases hbx with h1 | ⟨h1, _⟩
          · exact le_of_lt h1
          · exact le_of_eq h1
        rcases lt_or_eq_of_le (le_trans h hbkey) with h2 | h2
        · exact Or.inl h2
        · exact Or.inr ⟨h2, ha x (List.mem_cons_of_mem b hx) h2⟩
    · have e : sInsertK key a (b :: l) = b :: sInsertK key a l := by
        simp [sInsertK, h]
      rw [e]
      push_neg at h
      refine List.Pairwise.cons ?_
        (ih hl (fun x hx hk => ha x (List.mem_cons_of_mem b hx) hk))
      intro x hx
      rcases (mem_sInsertK key a x l).mp hx with rfl | hx
      · exact Or.inl h
      · exact hb x hx

theorem pairwise_lex_sSortK {α κ : Type} [LinearOrder κ] (key : α → κ)
    (R : α → α → Prop) (l : List α)
    (hl : l.Pairwise (fun x y => key x = key y → R x y)) :
    (sSortK key l).Pairwise
      (fun x y => key x < key y ∨ (key x = key y ∧ R x y)) := by
  induction l with
  | nil => simp [sSortK]
  | cons a l ih =>
    rw [List.pairwise_cons] at hl
    obtain ⟨ha, hl⟩ := hl
    exact pairwise_lex_sInsertK key R a (sSortK key l) (ih hl)
      (fun b hb hk => ha b ((mem_sSortK key b l).mp hb) hk)

theorem pairwise_le_sSortK {α κ : Type} [LinearOrder κ] (key : α → κ)
    (l : List α) : (sSortK key l).Pairwise (fun x y => key x ≤ key y) := by
  have triv : l.Pairwise (fun x y => key x = key y → True) := by
    induction l with
    | nil => exact List.Pairwise.nil
    | cons a l ih => exact List.Pairwise.cons (fun _ _ _ => trivial) ih
  have h := pairwise_lex_sSortK key (fun _ _ => True) l triv
  exact h.imp (fun hxy => by
    rcases hxy with h1 | ⟨h1, _⟩
    · exact le_of_lt h1
    · exact le_of_eq h1)

theorem filter_key_sInsertK {α κ : Type} [LinearOrder κ] (key : α → κ)
    (a : α) (l : List α) (c : κ) :
    (sInsertK key a l).filter (fun x => decide (key x = c)) =
      if key a = c then a :: l.filter (fun x => decide (key x = c))
      else l.filter (fun x => decide (key x = c)) := by
  induction l with
  | nil => by_cases hc : key a = c <;> simp [sInsertK, List.filter_cons, hc]
  | cons b l ih =>
    by_cases h : key a ≤ key b
    · have e : sInsertK key a (b :: l) = a :: b :: l := by simp [sInsertK, h]
      rw [e]
      by_cases hc : key a = c <;> simp [List.filter_cons, hc]
    · have e : sInsertK key a (b :: l) = b :: sInsertK key a l := by
        simp [sInsertK, h]
      rw [e]
      have hba : key b < key a := not_le.mp h
      by_cases hc : key a = c
      · have hbc : key b ≠ c := by rw [← hc]; exact ne_of_lt hba
        simp [List.filter_cons, hbc, ih, hc]
      · by_cases hbc : key b = c <;> simp [List.filter_cons, hbc, ih, hc]

theorem filter_key_sSortK {α κ : Type} [LinearOrder κ] (key : α → κ)
    (l : List α) (c : κ) :
    (sSortK key l).filter (fun x => decide (key x = c)) =
      l.filter (fun x => decide (key x = c)) := by
  induction l with
  | nil => simp [sSortK]
  | cons a l ih =>
    show (sInsertK key a (sSortK key l)).filter _ = _
    rw [filter_key_sInsertK]
    by_cases hc : key a = c <;> simp [List.filter_cons, hc, ih]

/-! ### `firstKeys` -/

theorem mem_foldlKeys (l : List Nat) (acc : List Nat) (x : Nat) :
    (x ∈ l.foldl (fun acc p => if p ∈ acc then acc else acc ++ [p]) acc) ↔
      x ∈ acc ∨ x ∈ l := by
  induction l generalizing acc with
  | nil => simp
  | cons p l ih =>
    rw [List.foldl_cons, ih]
    by_cases hp : p ∈ acc
    · simp only [if_pos hp, List.mem_cons]
      constructor
      · rintro (h | h)
        · exact Or.inl h
        · exact Or.inr (Or.inr h)
      · rintro (h | rfl | h)
        · exact Or.inl h
        · exact Or.inl hp
        · exact Or.inr h
    · simp only [if_neg hp, List.mem_append, List.mem_singleton, List.mem_cons]
      tauto

theorem nodup_foldlKeys (l : List Nat) (acc : List Nat) (hacc : acc.Nodup) :
    (l.foldl (fun acc p => if p ∈ acc then acc else acc ++ [p]) acc).Nodup := by
  induction l generalizing acc with
  | nil => simpa
  | cons p l ih =>
    rw [List.foldl_cons]
    by_cases hp : p ∈ acc
    · rw [if_pos hp]; exact ih acc hacc
    · rw [if_neg hp]
      refine ih _ ?_
      simp [List.nodup_append, hacc, hp]

theorem mem_firstKeys (l : List Nat) (x : Nat) : x ∈ firstKeys l ↔ x ∈ l := by
  rw [firstKeys, mem_foldlKeys]
  simp

theorem nodup_firstKeys (l : List Nat) : (firstKeys l).Nodup :=
  nodup_foldlKeys l [] List.nodup_nil

/-! ### Classifier plumbing -/

theorem classify_eq_some {pbs : List Block} {i : Nat} {b : Block} {h : Heading}
    (hc : classify pbs i b = some h) :
    h.text = b.text ∧ h.page = b.page ∧ 3 ≤ b.text.length := by
  rw [classify] at hc
  by_cases hskip : b.text.length < 3 ∨ pyLower b.text ∈ noiseTexts
  · rw [if_pos hskip] at hc; exact absurd hc (by simp)
  · rw [if_neg hskip] at hc
    push_neg at hskip
    dsimp only at hc
    by_cases hg : (typoHit b || patHit b.text ||
        (decide (i = 0) && decide (5 < b.text.length) && !pyIsDigit b.text) ||
        lookaheadHit pbs i b) = true
    · rw [if_pos hg] at hc
      obtain rfl := Option.some.inj hc
      exact ⟨rfl, rfl, hskip.1⟩
    · rw [if_neg hg] at hc
      exact absurd hc (by simp)

theorem snd_mem_of_mem_enum {α : Type} {x : Nat × α} {l : List α}
    (h : x ∈ l.enum) : x.2 ∈ l := by
  rw [List.mem_enum_iff_getElem?] at h
  exact List.getElem?_mem h

theorem mem_processPage {pbs : List Block} {h : Heading}
    (hh : h ∈ processPage pbs) :
    ∃ b ∈ pbs, h.text = b.text ∧ h.page = b.page ∧ 3 ≤ b.text.length := by
  rw [processPage, List.mem_filterMap] at hh
  obtain ⟨ib, hib, hc⟩ := hh
  exact ⟨ib.2, snd_mem_of_mem_enum hib, classify_eq_some hc⟩

theorem mem_identify_headings {blocks : List Block} {h : Heading}
    (hh : h ∈ identify_headings blocks) :
    ∃ b ∈ blocks, h.text = b.text ∧ h.page = b.page ∧ 3 ≤ b.text.length := by
  rw [identify_headings, mem_sSortK, List.mem_flatten] at hh
  obtain ⟨chunk, hchunk, hmem⟩ := hh
  rw [List.mem_map] at hchunk
  obtain ⟨p, _, rfl⟩ := hchunk
  obtain ⟨b, hb, hrest⟩ := mem_processPage hmem
  rw [mem_sSortK] at hb
  exact ⟨b, List.mem_of_mem_filter hb, hrest⟩

theorem identify_headings_nil : identify_headings [] = [] := rfl

theorem page_of_mem_chunk {blocks : List Block} {p : Nat} {h : Heading}
    (hh : h ∈ processPage (sSortK Block.y0 (pageChunk blocks p))) :
    h.page = p := by
  obtain ⟨b, hb, _, hpage, _⟩ := mem_processPage hh
  rw [mem_sSortK] at hb
  have := List.of_mem_filter hb
  rw [hpage]
  exact of_decide_eq_true this

theorem filter_chunk_ne (blocks : List Block) {k p : Nat} (hne : k ≠ p) :
    (processPage (sSortK Block.y0 (pageChunk blocks k))).filter
      (fun h => decide (h.page = p)) = [] := by
  rw [List.filter_eq_nil_iff]
  intro h hh
  simp only [decide_eq_true_eq]
  rw [page_of_mem_chunk hh]
  exact hne

theorem filter_flatten_notmem (blocks : List Block) (keys : List Nat)
    {p : Nat} (hp : p ∉ keys) :
    (((keys.map (fun k => processPage (sSortK Block.y0 (pageChunk blocks k)))).flatten).filter
      (fun h => decide (h.page = p))) = [] := by
  induction keys with
  | nil => rfl
  | cons k keys ih =>
    have hkp : k ≠ p := fun hkp => hp (hkp ▸ List.mem_cons_self k keys)
    rw [List.map_cons, List.flatten_cons, List.filter_append,
      filter_chunk_ne blocks hkp,
      ih (fun hmem => hp (List.mem_cons_of_mem k hmem))]
    rfl

theorem filter_flatten_chunks (blocks : List Block) (keys : List Nat)
    (hnd : keys.Nodup) {p : Nat}
    (hmem : p ∈ keys ∨ pageChunk blocks p = []) :
    (((keys.map (fun k => processPage (sSortK Block.y0 (pageChunk blocks k)))).flatten).filter
      (fun h => decide (h.page = p))) =
    processPage (sSortK Block.y0 (pageChunk blocks p)) := by
  induction keys with
  | nil =>
    rcases hmem with hmem | hmem
    · exact absurd hmem (List.not_mem_nil p)
    · rw [hmem]; rfl
  | cons k keys ih =>
    rw [List.nodup_cons] at hnd
    rw [List.map_cons, List.flatten_cons, List.filter_append]
    by_cases hkp : k = p
    · subst hkp
      rw [filter_flatten_notmem blocks keys hnd.1, List.append_nil,
        List.filter_eq_self]
      intro h hh
      simp only [decide_eq_true_eq]
      exact page_of_mem_chunk hh
    · rw [filter_chunk_ne blocks hkp, List.nil_append]
      refine ih hnd.2 ?_
      rcases hmem with hmem | hmem
      · rcases List.mem_cons.mp hmem with rfl | hmem
        · exact absurd rfl hkp
        · exact Or.inl hmem
      · exact Or.inr hmem

/-! ## Claim theorems -/

/-- C3: the Heading list returned by `identify_headings` is ordered by page
ascending (the always-taken fallback sort), and within each page the headings
are exactly those produced by scanning that page's spans sorted ascending by
`bbox.y0`, in scan order — so the list is sorted ascending by
(page, bbox.y0 of the originating span), degrading to a page-only sort key on
the heading records themselves. -/
theorem C3_identify_headings_sorted (blocks : List Block) :
    ((identify_headings blocks).Pairwise (fun a b => a.page ≤ b.page)) ∧
    ∀ p : Nat, (identify_headings blocks).filter (fun h => decide (h.page = p)) =
      processPage (sSortK Block.y0 (pageChunk blocks p)) := by
  constructor
  · exact pairwise_le_sSortK Heading.page _
  · intro p
    show (sSortK Heading.page _).filter _ = _
    rw [filter_key_sSortK Heading.page]
    refine filter_flatten_chunks blocks _ (nodup_firstKeys _) ?_
    by_cases hp : p ∈ blocks.map Block.page
    · exact Or.inl ((mem_firstKeys _ p).mpr hp)
    · refine Or.inr ?_
      rw [pageChunk, List.filter_eq_nil_iff]
      intro b hb
      simp only [decide_eq_true_eq]
      intro hpage
      exact hp (List.mem_map.mpr ⟨b, hb, hpage⟩)

/-- C5: the Outline Refiner's output is exactly the subsequence of input
headings with confidence at least 0.3 and non-empty trimmed text, each
surviving entry carrying its level, trimmed text and page unchanged, in the
input's relative order. -/
theorem C5_refine_outline_spec (hs : List Heading) :
    refine_outline hs =
      (hs.filter (fun h => !(pyStrip h.text).isEmpty &&
          decide ((0.3 : ℚ) ≤ h.confidence))).map
        (fun h => ⟨h.level, pyStrip h.text, h.page⟩) := by
  induction hs with
  | nil => rfl
  | cons h hs ih =>
    simp only [refine_outline, List.filterMap_cons, List.isEmpty_iff] at ih ⊢
    by_cases h1 : pyStrip h.text = []
    · simp [List.filter_cons, h1, ih]
    · by_cases h2 : h.confidence < (0.3 : ℚ)
      · simp [List.filter_cons, h1, h2, not_le.mpr h2, ih]
      · simp [List.filter_cons, h1, h2, not_lt.mp h2, ih]

/-- C6: the heading confidence is within `[0, 1]`, and toggling `is_bold`
from false to true with every other field of the span and its page context
fixed never decreases it. -/
theorem C6_confidence_bounds_mono (b : Block) (pbs : List Block) :
    0 ≤ calculate_heading_confidence b pbs ∧
    calculate_heading_confidence b pbs ≤ 1 ∧
    calculate_heading_confidence { b with is_bold := false } pbs ≤
      calculate_heading_confidence { b with is_bold := true } pbs := by
  refine ⟨?_, ?_, ?_⟩
  · unfold calculate_heading_confidence
    refine le_min ?_ (by norm_num)
    refine add_nonneg (add_nonneg (add_nonneg (add_nonneg ?_ ?_) ?_) ?_) ?_
    · split
      · norm_num
      · split <;> norm_num
    · split <;> norm_num
    · split <;> norm_num
    · split <;> norm_num
    · split
      · norm_num
      · split <;> norm_num
  · unfold calculate_heading_confidence
    exact min_le_right _ _
  · unfold calculate_heading_confidence
    simp only [Block.y0]
    refine min_le_min (add_le_add (add_le_add (add_le_add (add_le_add le_rfl
      ?_) le_rfl) le_rfl) le_rfl) le_rfl
    norm_num

/-- C9: on any span list (with the heading list the classifier derives from
it), the Title Selector returns a non-empty string, namely the first H1
heading's text, else the first qualifying span's stripped text truncated to
100 characters, else the sentinel. -/
theorem C9_extract_title_spec (blocks : List Block) :
    extract_title blocks (identify_headings blocks) ≠ [] ∧
    extract_title blocks (identify_headings blocks) =
      (match (identify_headings blocks).find?
          (fun h => decide (h.level = HLevel.H1)) with
       | some h => h.text
       | none =>
         match blocks.find? (fun b => titleCand b.text) with
         | some b => (pyStrip b.text).take 100
         | none => "Untitled Document".toList) := by
  constructor
  · rw [extract_title]
    by_cases hb : blocks.isEmpty
    · rw [if_pos hb]
      decide
    · rw [if_neg hb]
      cases e1 : (identify_headings blocks).find?
          (fun h => decide (h.level = HLevel.H1)) with
      | some h =>
        have hmem := List.mem_of_find?_eq_some e1
        obtain ⟨b, _, htext, _, hlen⟩ := mem_identify_headings hmem
        have hpos : 0 < h.text.length := by rw [htext]; omega
        exact List.length_pos.mp hpos
      | none =>
        cases e2 : blocks.find? (fun b => titleCand b.text) with
        | some b =>
          have hcand := List.find?_some e2
          rw [titleCand] at hcand
          simp only [Bool.and_eq_true, decide_eq_true_eq] at hcand
          have hpos : 0 < ((pyStrip b.text).take 100).length := by
            rw [List.length_take]
            omega
          exact List.length_pos.mp hpos
        | none => decide
  · rw [extract_title]
    by_cases hb : blocks.isEmpty
    · have hbl : blocks = [] := List.isEmpty_iff.mp hb
      subst hbl
      rfl
    · rw [if_neg hb]

theorem persona_keywords_nonempty :
    ∀ e ∈ persona_keywords, ∀ kw ∈ e.2, kw ≠ [] := by decide

theorem lookupKw_nonempty (p : List Char) : ∀ kw ∈ lookupKw p, kw ≠ [] := by
  intro kw hkw
  rw [lookupKw] at hkw
  cases e : persona_keywords.find? (fun e => decide (e.1 = p)) with
  | none => rw [e] at hkw; exact absurd hkw (List.not_mem_nil kw)
  | some entry =>
    rw [e] at hkw
    exact persona_keywords_nonempty entry (List.mem_of_find?_eq_some e) kw hkw

theorem countMatches_nil (kws : List (List Char))
    (hk : ∀ kw ∈ kws, kw ≠ []) : countMatches [] kws = 0 := by
  rw [countMatches]
  have hfil : kws.filter (fun kw => isSub (pyLower kw) (pyLower [])) = [] := by
    rw [List.filter_eq_nil_iff]
    intro kw hkw
    show ¬ ((pyLower kw).isEmpty = true)
    simp [pyLower, List.isEmpty_iff, hk kw hkw]
  rw [hfil]
  rfl

/-- C7: the Relevance Scorer is within `[0, 1]`; for a label without a table
entry (e.g. an unknown persona) it is exactly 0; and in general it equals the
keyword-overlap ratio, boosted by 1.2 for texts over 100 characters and
clamped to 1, with the empty keyword set scoring 0. -/
theorem C7_persona_relevance_spec (t p : List Char) :
    0 ≤ calculate_persona_relevance t p ∧
    calculate_persona_relevance t p ≤ 1 ∧
    calculate_persona_relevance t p =
      (if (lookupKw p).isEmpty then 0
       else min ((countMatches t (lookupKw p) : ℚ) / ((lookupKw p).length : ℚ) *
         (if 100 < t.length then (1.2 : ℚ) else 1)) 1) ∧
    calculate_persona_relevance t ("Astronaut".toList) = 0 := by
  refine ⟨?_, ?_, ?_, ?_⟩
  · rw [calculate_persona_relevance]
    split
    · exact le_refl 0
    · dsimp only
      split
      · exact le_refl 0
      · refine le_min ?_ (by norm_num)
        split
        · positivity
        · positivity
  · rw [calculate_persona_relevance]
    split
    · norm_num
    · dsimp only
      split
      · norm_num
      · exact min_le_right _ _
  · by_cases ht : t = []
    · subst ht
      rw [calculate_persona_relevance, if_pos (by simp)]
      by_cases hk : (lookupKw p).isEmpty
      · rw [if_pos hk]
      · rw [if_neg hk]
        have h0 : countMatches [] (lookupKw p) = 0 :=
          countMatches_nil _ (lookupKw_nonempty p)
        rw [h0]
        norm_num
    · by_cases hp : p = []
      · subst hp
        rw [calculate_persona_relevance, if_pos (by simp)]
        have hl : lookupKw ([] : List Char) = [] := by decide
        rw [hl]
        rfl
      · rw [calculate_persona_relevance,
          if_neg (by simp [List.isEmpty_iff, ht, hp])]
        dsimp only
        by_cases hk : (lookupKw p).isEmpty
        · rw [if_pos hk, if_pos hk]
        · rw [if_neg hk, if_neg hk]
          by_cases hb : 100 < t.length
          · rw [if_pos hb, if_pos hb]
          · rw [if_neg hb, if_neg hb, mul_one]
  · rw [calculate_persona_relevance]
    by_cases ht : t.isEmpty
    · rw [if_pos (by simp [ht])]
    · rw [if_neg (by simp [List.isEmpty_iff] at ht ⊢; exact ht)]
      have hl : lookupKw ("Astronaut".toList) = [] := by decide
      dsimp only
      rw [hl]
      rfl

/-- C8: the Section Ranker's output is sorted non-increasing by importance
score; equal-score runs appear exactly as in the scored input (stability);
and every ranked section has non-empty stripped text (empty ones are dropped
before scoring). -/
theorem C8_rank_sections_spec (sections : List PSection)
    (persona task : List Char) :
    ((rank_sections_by_importance sections persona task).Pairwise
      (fun a b => b.importance_score ≤ a.importance_score)) ∧
    (∀ c : ℚ, (rank_sections_by_importance sections persona task).filter
        (fun r => decide (r.importance_score = c)) =
      ((sections.filter (fun s => !(pyStrip s.text).isEmpty)).map
        (scoreSection persona task)).filter
        (fun r => decide (r.importance_score = c))) ∧
    (∀ r ∈ rank_sections_by_importance sections persona task,
      pyStrip r.sec.text ≠ []) := by
  refine ⟨?_, ?_, ?_⟩
  · have h := pairwise_le_sSortK (fun r : Ranked => -r.importance_score)
      ((sections.filter (fun s => !(pyStrip s.text).isEmpty)).map
        (scoreSection persona task))
    exact h.imp (fun hxy => neg_le_neg_iff.mp hxy)
  · intro c
    have hcong : ∀ (l : List Ranked),
        l.filter (fun r => decide (r.importance_score = c)) =
          l.filter (fun r => decide (-r.importance_score = -c)) := by
      intro l
      refine List.filter_congr (fun x _ => ?_)
      rw [decide_eq_decide]
      exact neg_inj.symm
    rw [rank_sections_by_importance, hcong, hcong,
      filter_key_sSortK (fun r : Ranked => -r.importance_score)]
  · intro r hr
    rw [rank_sections_by_importance, mem_sSortK, List.mem_map] at hr
    obtain ⟨s, hs, rfl⟩ := hr
    have hfil := List.of_mem_filter hs
    show pyStrip s.text ≠ []
    simpa [List.isEmpty_iff] using hfil

/-! ### Whitespace / sentence lemmas for the Subsection Refiner -/

theorem length_dropWhileC (p : Char → Bool) (l : List Char) :
    (l.dropWhile p).length ≤ l.length := by
  induction l with
  | nil => simp
  | cons c t ih =>
    rw [List.dropWhile_cons]
    split
    · exact le_trans ih (Nat.le_succ _)
    · exact le_refl _

theorem dropWhile_suffix_getLast? {p : Char → Bool} {l : List Char}
    (h : l.dropWhile p ≠ []) : (l.dropWhile p).getLast? = l.getLast? := by
  induction l with
  | nil => simp at h
  | cons c t ih =>
    rw [List.dropWhile_cons] at h ⊢
    by_cases hc : p c = true
    · rw [if_pos hc] at h ⊢
      cases t with
      | nil => simp at h
      | cons d t2 =>
        rw [ih h, List.getLast?_cons_cons]
    · rw [if_neg hc]

theorem pyStrip_length_lt (l : List Char) (h : l.getLast? = some ' ') :
    (pyStrip l).length + 1 ≤ l.length := by
  have hlnil : l ≠ [] := by
    intro hl
    rw [hl] at h
    exact absurd h (by simp)
  rw [pyStrip]
  by_cases hnil : l.dropWhile isWsC = []
  · rw [hnil]
    have : (0:Nat) < l.length := List.length_pos.mpr hlnil
    simpa using this
  · have hlast : (l.dropWhile isWsC).getLast? = some ' ' :=
      (dropWhile_suffix_getLast? hnil).trans h
    have hhead : (l.dropWhile isWsC).reverse.head? = some ' ' := by
      rw [List.head?_reverse, hlast]
    obtain ⟨rest, hrev⟩ : ∃ rest, (l.dropWhile isWsC).reverse = ' ' :: rest := by
      cases e : (l.dropWhile isWsC).reverse with
      | nil => rw [e] at hhead; exact absurd hhead (by simp)
      | cons a r =>
        rw [e] at hhead
        exact ⟨r, by rw [Option.some.inj hhead]⟩
    rw [hrev, List.dropWhile_cons, if_pos (by decide : isWsC ' ' = true)]
    have h1 : (rest.dropWhile isWsC).length ≤ rest.length :=
      length_dropWhileC _ _
    have h2 : rest.length + 1 = (l.dropWhile isWsC).length := by
      have := congrArg List.length hrev
      simpa [List.length_reverse] using this.symm
    have h3 : (l.dropWhile isWsC).length ≤ l.length := length_dropWhileC _ _
    simp only [List.length_reverse]
    omega

theorem greedyAssemble_bound (sents : List (List Char)) (acc : List Char)
    (hacc : acc = [] ∨ (acc.getLast? = some ' ' ∧ acc.length ≤ 2001)) :
    greedyAssemble sents acc = [] ∨
      ((greedyAssemble sents acc).getLast? = some ' ' ∧
        (greedyAssemble sents acc).length ≤ 2001) := by
  induction sents generalizing acc with
  | nil => exact hacc
  | cons s rest ih =>
    rw [greedyAssemble]
    split
    · refine ih _ (Or.inr ⟨?_, ?_⟩)
      · have : acc ++ s ++ (". ".toList) = (acc ++ s ++ ['.']) ++ [' '] := by
          simp
        rw [this, List.getLast?_concat]
      · have hcond : (acc ++ s).length < 2000 := by assumption
        simp only [List.length_append] at hcond
        simp only [List.length_append, String.toList, List.length_cons,
          List.length_nil]
        omega
    · exact hacc

/-- C10: the Subsection Refiner's output never exceeds 2000 characters. -/
theorem C10_refine_length_bound (text : List Char) :
    (refine_text_for_subsection text).length ≤ 2000 := by
  rw [refine_text_for_subsection]
  split
  · simp
  · dsimp only
    split
    · rcases greedyAssemble_bound
        (splitPunct (stripTrailNum (collapseWs (pyStrip text)))) [] (Or.inl rfl)
        with hg | ⟨hlast, hlen⟩
      · rw [hg]
        simp [pyStrip]
      · have := pyStrip_length_lt _ hlast
        omega
    · omega

theorem dropWhile_eq_self_of_neg (p : Char → Bool) (l : List Char)
    (h : ∀ c ∈ l, p c = false) : l.dropWhile p = l := by
  cases l with
  | nil => rfl
  | cons c t =>
    rw [List.dropWhile_cons, if_neg]
    simp [h c (List.mem_cons_self c t)]

theorem pyStrip_eq_self (l : List Char) (h : ∀ c ∈ l, isWsC c = false) :
    pyStrip l = l := by
  rw [pyStrip, dropWhile_eq_self_of_neg _ _ h,
    dropWhile_eq_self_of_neg _ _ (fun c hc => h c (List.mem_reverse.mp hc)),
    List.reverse_reverse]

theorem collapseWs_eq_self (l : List Char) (h : ∀ c ∈ l, isWsC c = false) :
    collapseWs l = l := by
  induction l with
  | nil => simp [collapseWs]
  | cons c t ih =>
    cases t with
    | nil => simp [collapseWs, h c (List.mem_cons_self c [])]
    | cons d t2 =>
      have hc := h c (List.mem_cons_self c (d :: t2))
      have ht : ∀ x ∈ d :: t2, isWsC x = false :=
        fun x hx => h x (List.mem_cons_of_mem c hx)
      simp only [collapseWs, hc, Bool.false_eq_true, if_false]
      rw [ih ht]

theorem stripTrailNum_eq_self (l : List Char)
    (h : ∀ c ∈ l, c.isDigit = false ∧ isWsC c = false) :
    stripTrailNum l = l := by
  rw [stripTrailNum]
  have h2 : l.reverse.dropWhile isWsC = l.reverse :=
    dropWhile_eq_self_of_neg _ _
      (fun c hc => (h c (List.mem_reverse.mp hc)).2)
  rw [h2]
  have h3 : l.reverse.takeWhile Char.isDigit = [] := by
    cases e : l.reverse with
    | nil => rfl
    | cons c t =>
      rw [List.takeWhile_cons, if_neg]
      have : c ∈ l := List.mem_reverse.mp (e ▸ List.mem_cons_self c t)
      simp [(h c this).1]
  rw [h3]
  rfl

theorem splitPunct_no_punct (l : List Char)
    (h : ∀ c ∈ l, isPunctC c = false) : splitPunct l = [l] := by
  induction l with
  | nil => simp [splitPunct]
  | cons c t ih =>
    cases t with
    | nil => simp [splitPunct, h c (List.mem_cons_self c [])]
    | cons d t2 =>
      have hc := h c (List.mem_cons_self c (d :: t2))
      have ht : ∀ x ∈ d :: t2, isPunctC x = false :=
        fun x hx => h x (List.mem_cons_of_mem c hx)
      simp only [splitPunct, hc, Bool.false_eq_true, if_false]
      rw [ih ht]

/-- C4: a 2500-character section text with no sentence punctuation (already
whitespace-normal and with no strippable trailing digits) refines to the
empty string: no sentence fits under the 2000-character cap. -/
theorem C4_refine_no_sentence_empty (s : List Char)
    (h1 : collapseWs (pyStrip s) = s) (h2 : stripTrailNum s = s)
    (h3 : s.length = 2500) (h4 : ∀ c ∈ s, isPunctC c = false) :
    refine_text_for_subsection s = [] := by
  rw [refine_text_for_subsection, if_neg]
  · dsimp only
    rw [h1, h2, if_pos (by omega), splitPunct_no_punct s h4]
    have hg : greedyAssemble [s] [] = [] := by
      simp only [greedyAssemble]
      rw [if_neg (show ¬ (([] ++ s : List Char).length < 2000) by simp [h3])]
    rw [hg]
    rfl
  · simp only [List.isEmpty_iff]
    intro hs
    rw [hs] at h3
    simp at h3

/-- Witness for C4: the concrete 2500-letter input. -/
theorem C4_witness_refine_empty :
    refine_text_for_subsection (List.replicate 2500 'a') = [] := by
  have hmem : ∀ c ∈ List.replicate 2500 'a', c = 'a' :=
    fun c hc => List.eq_of_mem_replicate hc
  refine C4_refine_no_sentence_empty _ ?_ ?_ ?_ ?_
  · rw [pyStrip_eq_self _ (fun c hc => by rw [hmem c hc]; decide)]
    exact collapseWs_eq_self _ (fun c hc => by rw [hmem c hc]; decide)
  · exact stripTrailNum_eq_self _
      (fun c hc => by rw [hmem c hc]; exact ⟨by decide, by decide⟩)
  · rw [List.length_replicate]
  · exact fun c hc => by rw [hmem c hc]; decide

/-- C1 counterexample: the span `"1. Introduction"` with font size 18 — the
typography level is H1 (`font_size > 16`) and the numbered pattern matches —
is emitted with level H2 when it is not the first span of its page: the
pattern level downgrades the typography level, contradicting the claim that
a higher typography level is never downgraded. -/
theorem C1_counterexample :
    (16 : ℚ) < numB18.font_size ∧ numberedPat numB18.text = true ∧
    (identify_headings [nbShort, numB18]).map Heading.level = [HLevel.H2] := by
  refine ⟨by decide, by decide, by decide⟩

/-- C1 amended: the level precedence actually implemented is
position-derived > pattern-derived > typography-derived.  For every emitted
heading: the first-span position signal forces H1 over everything; otherwise
an all-caps match forces H1 and a numbered match forces H2 — overwriting
(including downgrading) whatever level typography chose. -/
theorem C1_level_precedence (pbs : List Block) (i : Nat) (b : Block) :
    ∀ h : Heading, classify pbs i b = some h →
      ((i = 0 ∧ 5 < b.text.length ∧ pyIsDigit b.text = false) →
        h.level = HLevel.H1) ∧
      (¬ (i = 0 ∧ 5 < b.text.length ∧ pyIsDigit b.text = false) →
        (allCapsPat b.text = true → h.level = HLevel.H1) ∧
        (allCapsPat b.text = false → numberedPat b.text = true →
          h.level = HLevel.H2)) := by
  intro h hc
  rw [classify] at hc
  by_cases hskip : b.text.length < 3 ∨ pyLower b.text ∈ noiseTexts
  · rw [if_pos hskip] at hc
    exact absurd hc (by simp)
  · rw [if_neg hskip] at hc
    dsimp only at hc
    by_cases hg : (typoHit b || patHit b.text ||
        (decide (i = 0) && decide (5 < b.text.length) && !pyIsDigit b.text) ||
        lookaheadHit pbs i b) = true
    · rw [if_pos hg] at hc
      obtain rfl := Option.some.inj hc
      constructor
      · intro hpos
        show (if (decide (i = 0) && decide (5 < b.text.length) &&
            !pyIsDigit b.text) = true then HLevel.H1 else _) = HLevel.H1
        rw [if_pos]
        simp [hpos.1, hpos.2.1, hpos.2.2]
      · intro hpos
        have hposb : (decide (i = 0) && decide (5 < b.text.length) &&
            !pyIsDigit b.text) = false := by
          rcases Bool.eq_false_or_eq_true (decide (i = 0) &&
            decide (5 < b.text.length) && !pyIsDigit b.text) with hb | hb
          · exfalso
            apply hpos
            simp only [Bool.and_eq_true, decide_eq_true_eq,
              Bool.not_eq_true'] at hb
            exact ⟨hb.1.1, hb.1.2, hb.2⟩
          · exact hb
        constructor
        · intro hcaps
          show (if (decide (i = 0) && decide (5 < b.text.length) &&
              !pyIsDigit b.text) = true then HLevel.H1 else _) = HLevel.H1
          rw [hposb]
          simp [patHit, hcaps]
        · intro hcaps hnum
          show (if (decide (i = 0) && decide (5 < b.text.length) &&
              !pyIsDigit b.text) = true then HLevel.H1 else _) = HLevel.H2
          rw [hposb]
          simp [patHit, hcaps, hnum]
    · rw [if_neg hg] at hc
      exact absurd hc (by simp)

/-- Witness for C1: the precedence theorem applied to the concrete
`"1. Introduction"` span at index 1 of its page. -/
theorem C1_witness :
    (classify [nbShort, numB18] 1 numB18).map Heading.level =
      some HLevel.H2 := by
  cases e : classify [nbShort, numB18] 1 numB18 with
  | none => exact absurd e (by decide)
  | some h =>
    have hl := ((C1_level_precedence [nbShort, numB18] 1 numB18 h e).2
      (by decide)).2 (by decide) (by decide)
    rw [Option.map_some', hl]

/-- C2 counterexample: the classifier's step 2–3 trigger and the segmenter's
boundary trigger differ: a small-font `"Chapter 1"` span matches the
classifier's pattern list (5 regexes) but not the segmenter's (2 regexes);
and a 13-point span passes the classifier's 12-point threshold but not the
segmenter's 14-point threshold. -/
theorem C2_counterexample :
    (typoHit chB || patHit chB.text) = true ∧ segTrigger chB = false ∧
    typoHit fs13B = true ∧ segTrigger fs13B = false := by
  refine ⟨by decide, by decide, by decide, by decide⟩

/-- C2 amended: the segmenter's trigger (`font_size > 14` or bold or
all-caps or numbered) is strictly stronger than the classifier's step 2–3
trigger (`font_size > 12` or bold or any of the five patterns): every
segmenter boundary is a classifier heading trigger, not conversely. -/
theorem C2_seg_implies_classifier (b : Block) (h : segTrigger b = true) :
    (typoHit b || patHit b.text) = true := by
  rw [segTrigger] at h
  rw [typoHit, patHit]
  simp only [Bool.or_eq_true, decide_eq_true_eq] at h ⊢
  rcases h with ((h14 | hbold) | hcaps) | hnum
  · exact Or.inl (Or.inl (by linarith))
  · exact Or.inl (Or.inr hbold)
  · exact Or.inr (Or.inl (Or.inl (Or.inl (Or.inl hcaps))))
  · exact Or.inr (Or.inl (Or.inl (Or.inl (Or.inr hnum))))

/-- Witness for C2: a 20-point span triggers the segmenter, hence the
classifier. -/
theorem C2_witness : (typoHit bigB || patHit bigB.text) = true :=
  C2_seg_implies_classifier bigB (by decide)

end AIH
